import Mathlib

/-!
Shallow embedding of the midi2osc dispatch engine (fjammes/midi2osc).

The repository has three Go program variants sharing one design:
* a config-driven rtmidi variant whose `ControlChange` handler matches
  `config.Mappings` and sends OSC messages synchronously;
* a config-driven JACK variant whose `process` callback matches the same
  mapping table and hands outcomes to a sender goroutine through a bounded
  channel (`eventChan`, capacity 64) via a non-blocking `select`;
* a hardcoded prototype (`handleCC`).

Both config-driven variants share `sendOSC` and `atoi` verbatim.  The
definitions below are translated from that Go source.  Go `interface{}`
values coming out of the YAML decoder are modelled by the inductive
`GoVal`; a failed unchecked type assertion (`value.(int)`) is a Go
runtime panic, modelled by the `crash` constructors.  The network side of
`client.Send` is a parameter `net` (an oracle returning `none` on success
and `some err` on a per-send network failure); the bytes-on-the-wire
encoding is out of scope per the spec, so a message is kept as its OSC
path plus the list of appended arguments.  Float64 payloads are carried
opaquely (no claim inspects float arithmetic).
-/

/-- A Go `interface{}` value as produced by the YAML decoder:
integers decode to `int`, floats to `float64`, strings to `string`,
booleans to `bool`, null to `nil`.  The float payload is opaque. -/
inductive GoVal where
  | vint : Int → GoVal
  | vfloat : Nat → GoVal
  | vstring : String → GoVal
  | vbool : Bool → GoVal
  | vnil : GoVal
deriving DecidableEq, Repr

/-- One OSC argument as appended to a message by `msg.Append`. -/
inductive OscDatum where
  | dint32 : Int → OscDatum
  | dfloat32 : Nat → OscDatum
  | dstr : String → OscDatum
  | dbool : Bool → OscDatum
deriving DecidableEq, Repr

/-- An OSC message: the destination path and the appended arguments. -/
structure OscMessage where
  path : String
  args : List OscDatum
deriving DecidableEq, Repr

/-- `OSCAction` from the Go source: one OSC message to send. -/
structure OSCAction where
  path : String
  type : String
  value : GoVal
deriving DecidableEq, Repr

/-- `Mapping` from the Go source: ties a CC number + value to actions.
`CC` and `Value` are Go `uint8`; bytes are modelled as `Nat` (the driver
only ever delivers values in 0..255, and matching is pure equality). -/
structure Mapping where
  cc : Nat
  value : Nat
  actions : List OSCAction
deriving DecidableEq, Repr

/-- `Config` from the Go source: destination address and the rule table. -/
structure Config where
  oscTarget : String
  mappings : List Mapping
deriving DecidableEq, Repr

/-- `MidiEvent` from the JACK variant: the queue payload (DispatchOutcome). -/
structure MidiEvent where
  cc : Nat
  value : Nat
  target : String
  actions : List OSCAction
deriving DecidableEq, Repr

/-- Go `int32(n)` conversion on a Go `int`: wrap into [-2^31, 2^31). -/
def toInt32 (n : Int) : Int :=
  (n + 2 ^ 31) % 2 ^ 32 - 2 ^ 31

/-- Value of a digit string, most significant first. -/
def digitsVal (cs : List Char) : Nat :=
  cs.foldl (fun acc c => acc * 10 + (c.toNat - 48)) 0

/-- The longest run of leading decimal digits, as a number; `none`
when there is no leading digit. -/
def decDigits (cs : List Char) : Option Nat :=
  let ds := cs.takeWhile Char.isDigit
  if ds.isEmpty then none else some (digitsVal ds)

/-- The scanning core of Go `fmt.Sscanf(s, "%d", &i)`: skip leading
blanks (a newline is a scan error for `Sscanf`), then an optional sign,
then at least one decimal digit; `none` when the scan fails.  Extra
input after the digits is ignored (the unconsumed-input error, like any
error, is discarded by `atoi`). -/
def scanDec (cs : List Char) : Option Int :=
  match cs.dropWhile fun c => c = ' ' ∨ c = '\t' with
  | [] => none
  | c :: cs' =>
    if c = '\n' ∨ c = '\r' then none
    else if c = '-' then (decDigits cs').map fun n => -(n : Int)
    else if c = '+' then (decDigits cs').map fun n => (n : Int)
    else (decDigits (c :: cs')).map fun n => (n : Int)

/-- `atoi` applied to a character list. -/
def atoiChars (cs : List Char) : Int :=
  (scanDec cs).getD 0

/-- `atoi` from the Go source: `fmt.Sscanf(s, "%d", &i)` with the error
discarded, so `i` keeps its zero value when the scan fails. -/
def atoi (s : String) : Int :=
  atoiChars s.toList

/-- Go `strings.HasPrefix(s, p)` over character lists. -/
def leadsWith : List Char → List Char → Bool
  | [], _ => true
  | _ :: _, [] => false
  | p :: ps, c :: cs => p = c && leadsWith ps cs

/-- Go `strings.Split(s, sep)` for a one-character separator: the
groups between occurrences of `sep`, so a string with no separator is
one group and `n` separators give `n + 1` groups. -/
def splitCh (sep : Char) : List Char → List (List Char)
  | [] => [[]]
  | c :: cs =>
    match splitCh sep cs with
    | [] => [[]]
    | g :: gs => if c = sep then [] :: g :: gs else (c :: g) :: gs

/-- Result of one step of encoding an OSC argument in `sendOSC`. -/
inductive EncodeResult where
  | ok : OscDatum → EncodeResult
  | err : String → EncodeResult
  | crash : String → EncodeResult
deriving DecidableEq, Repr

/-- The `switch oscType` encode step of `sendOSC` in the config-driven
variants.  Cases `i`, `f`, `s` use unchecked Go type assertions
(`value.(int)` etc.), which panic when the dynamic type differs; cases
`T` and `F` never read `value`. -/
def encodeArg (t : String) (v : GoVal) : EncodeResult :=
  match t with
  | "i" =>
    match v with
    | .vint n => .ok (.dint32 (toInt32 n))
    | _ => .crash "interface conversion: interface is not int"
  | "f" =>
    match v with
    | .vfloat x => .ok (.dfloat32 x)
    | _ => .crash "interface conversion: interface is not float64"
  | "s" =>
    match v with
    | .vstring s => .ok (.dstr s)
    | _ => .crash "interface conversion: interface is not string"
  | "T" => .ok (.dbool true)
  | "F" => .ok (.dbool false)
  | _ => .err ("unsupported OSC type: " ++ t)

/-- Result of one `sendOSC` call.  `sent`/`senderr` record the host and
port handed to `osc.NewClient` together with the message handed to
`client.Send`; `err` is a returned Go error before any send; `crash` is
a runtime panic of the encode step. -/
inductive SendResult where
  | sent : String → Int → OscMessage → SendResult
  | senderr : String → Int → OscMessage → String → SendResult
  | err : String → SendResult
  | crash : String → SendResult
deriving DecidableEq, Repr

/-- The network oracle standing for `client.Send`: `none` is a
successful send, `some e` a per-send network failure with error `e`. -/
def Net : Type := String → Int → OscMessage → Option String

/-- A network in which every send succeeds. -/
def netOk : Net := fun _ _ _ => none

/-- `sendOSC` from the config-driven Go variants, line by line:
scheme check, split of the remainder on `":"` into exactly two parts,
`osc.NewClient(host, atoi(port))`, one-argument message build per the
type tag, then `client.Send`. -/
def sendOSC (net : Net) (oscAddress oscPath oscType : String) (value : GoVal) :
    SendResult :=
  if ¬ leadsWith "osc.tcp://".toList oscAddress.toList then
    .err "only osc.tcp:// is supported"
  else
    match splitCh ':' (oscAddress.drop 10).toList with
    | [host, port] =>
      match encodeArg oscType value with
      | .ok d =>
        match net (String.mk host) (atoiChars port) ⟨oscPath, [d]⟩ with
        | none => .sent (String.mk host) (atoiChars port) ⟨oscPath, [d]⟩
        | some e => .senderr (String.mk host) (atoiChars port) ⟨oscPath, [d]⟩ e
      | .err e => .err e
      | .crash e => .crash e
    | _ => .err "invalid OSC address format"

/-- Whether a `sendOSC` result is a Go runtime panic (which in the real
program aborts the surrounding goroutine). -/
def isCrash : SendResult → Bool
  | .crash _ => true
  | _ => false

/-!  The realtime producer and the bounded event queue (JACK variant). -/

/-- The three bytes of a raw device event that the `process` callback
reads: `event.Buffer[0]` (status), `event.Buffer[1]` (controller),
`event.Buffer[2]` (value). -/
structure RawEvent where
  b0 : Nat
  b1 : Nat
  b2 : Nat
deriving DecidableEq, Repr

/-- The match decision of the dispatch loop
`for _, m := range cfg.Mappings { if m.CC == cc && m.Value == val { ... } }`:
the sublist of mappings that fire, in config order. -/
def dispatchMatch (cc val : Nat) : List Mapping → List Mapping
  | [] => []
  | m :: ms =>
    if m.cc = cc ∧ m.value = val then m :: dispatchMatch cc val ms
    else dispatchMatch cc val ms

/-- The `MidiEvent` built by `process` on a match (the DispatchOutcome). -/
def mkOutcome (cfg : Config) (cc val : Nat) (m : Mapping) : MidiEvent :=
  ⟨cc, val, cfg.oscTarget, m.actions⟩

/-- The non-blocking enqueue
`select { case eventChan <- msg: default: }` on a buffered Go channel of
capacity `K`, with the queue contents made explicit: if a slot is free
the item goes to the back and the attempt reports enqueued (`true`);
otherwise the queue is unchanged and the attempt reports dropped
(`false`).  Either way the operation returns at once. -/
def tryEnqueue (K : Nat) (q : List MidiEvent) (e : MidiEvent) :
    List MidiEvent × Bool :=
  if q.length < K then (q ++ [e], true) else (q, false)

/-- A blocking receive `<-eventChan`: the consumer takes the front item;
on an empty open channel it blocks (no item, queue unchanged). -/
def dequeue (q : List MidiEvent) : Option (MidiEvent × List MidiEvent) :=
  match q with
  | [] => none
  | x :: xs => some (x, xs)

/-- One raw event inside the `process` callback: only when the status
byte's upper nibble is `0xB0` (Control-Change) are the two payload bytes
extracted, the mapping table scanned, and a non-blocking enqueue
attempted for every match, in config order.  Returns the queue after the
event.  (The diagnostics channel `ch` is a separate side channel and not
part of the dispatch queue modelled here.) -/
def processEvent (cfg : Config) (K : Nat) (q : List MidiEvent)
    (e : RawEvent) : List MidiEvent :=
  if e.b0 &&& 0xF0 = 0xB0 then
    cfg.mappings.foldl
      (fun q m =>
        if m.cc = e.b1 ∧ m.value = e.b2 then
          (tryEnqueue K q (mkOutcome cfg e.b1 e.b2 m)).1
        else q)
      q
  else q

/-- The `process` callback over one processing block: sequentially
handle every raw event of the block. -/
def process (cfg : Config) (K : Nat) (q : List MidiEvent)
    (events : List RawEvent) : List MidiEvent :=
  events.foldl (processEvent cfg K) q

/-- The capacity of `eventChan` in the JACK variant's `main`:
`make(chan MidiEvent, 64)`. -/
def eventChanCap : Nat := 64

/-- An operation on the bounded queue: a producer enqueue attempt or a
consumer dequeue.  Arbitrary interleavings model arbitrary relative
producer/consumer speed; a consumer that never runs is a list with no
`deq`. -/
inductive QueueOp where
  | enq : MidiEvent → QueueOp
  | deq : QueueOp

/-- Effect of one queue operation on the queue contents.  A `deq` on an
empty queue is a consumer blocked on `<-eventChan`: nothing changes. -/
def runOp (K : Nat) (q : List MidiEvent) : QueueOp → List MidiEvent
  | .enq e => (tryEnqueue K q e).1
  | .deq => q.tail

/-- Run a sequence of queue operations. -/
def runOps (K : Nat) (ops : List QueueOp) (q : List MidiEvent) :
    List MidiEvent :=
  ops.foldl (runOp K) q

/-!  The sender worker (JACK variant) and the synchronous handler
(rtmidi variant). -/

/-- One action inside the sender loop:
`sendOSC(msg.Target, act.Path, act.Type, act.Value)`. -/
def sendAction (net : Net) (target : String) (a : OSCAction) : SendResult :=
  sendOSC net target a.path a.type a.value

/-- The sender loop over one outcome's actions, in configured order.  A
returned error is logged and the loop continues with the next action; a
panic of the encode step aborts the goroutine, so nothing after it is
attempted. -/
def senderActions (net : Net) (target : String) :
    List OSCAction → List SendResult
  | [] => []
  | a :: rest =>
    match sendAction net target a with
    | .crash s => [.crash s]
    | r => r :: senderActions net target rest

/-- The sender goroutine `for msg := range eventChan { ... }` over the
outcomes it dequeues, in FIFO order; a panic while handling one outcome
kills the goroutine, so later outcomes are not processed. -/
def senderWorker (net : Net) : List MidiEvent → List (List SendResult)
  | [] => []
  | o :: rest =>
    let rs := senderActions net o.target o.actions
    if rs.any isCrash then [rs] else rs :: senderWorker net rest

/-- The rtmidi variant's `reader.ControlChange` handler: scan the
mapping table for exact matches and send every matching action's message
immediately, matches in config order, actions in configured order; a
panic anywhere aborts the handler (hence the shared `senderActions` over
the flattened action list of all matches). -/
def ccHandler (net : Net) (cfg : Config) (cc val : Nat) : List SendResult :=
  senderActions net cfg.oscTarget
    ((dispatchMatch cc val cfg.mappings).foldr (fun m acc => m.actions ++ acc) [])

/-!  Auxiliary predicates used to state the claims. -/

/-- The type tags whose encode step performs an unchecked Go type
assertion on the configured value. -/
def assertingTag (t : String) : Bool :=
  t == "i" || t == "f" || t == "s"

/-- Whether a configured value's dynamic (YAML-decoded) type agrees with
the declared type tag's assertion. -/
def valMatchesTag (t : String) (v : GoVal) : Bool :=
  match t, v with
  | "i", .vint _ => true
  | "f", .vfloat _ => true
  | "s", .vstring _ => true
  | _, _ => false

/-- Whether a string is a valid decimal numeral in its entirety
(the success condition of Go `strconv.Atoi`): an optional sign followed
by one or more digits and nothing else. -/
def decimalNumeral (s : String) : Bool :=
  match s.toList with
  | '-' :: cs => ¬ cs.isEmpty && cs.all Char.isDigit
  | '+' :: cs => ¬ cs.isEmpty && cs.all Char.isDigit
  | cs => ¬ cs.isEmpty && cs.all Char.isDigit

/-- The round-trip configuration of the spec's testable property:
one rule `{controller=27, value=127}` with a single integer action. -/
def roundTripConfig : Config :=
  ⟨"osc.tcp://clrinfopo18.home:22752",
   [⟨27, 127, [⟨"/Carla_Patchbay_4/0/set_active", "i", .vint 1⟩]⟩]⟩

/-!  Helper lemmas shared by the claim theorems. -/

/-- The dispatch loop's match decision is a filter by exact equality. -/
theorem dispatchMatch_eq_filter (cc val : Nat) (ms : List Mapping) :
    dispatchMatch cc val ms =
      ms.filter fun m => m.cc == cc && m.value == val := by
  induction ms with
  | nil => rfl
  | cons m ms ih =>
    simp only [dispatchMatch, List.filter_cons, ih]
    by_cases h1 : m.cc = cc <;> by_cases h2 : m.value = val <;>
      simp [h1, h2]

/-- The producer loop over the mapping table equals the enqueue fold
over the matched sublist. -/
theorem matchFold_eq (cfg : Config) (K cc val : Nat)
    (ms : List Mapping) (q : List MidiEvent) :
    ms.foldl
        (fun q m =>
          if m.cc = cc ∧ m.value = val then
            (tryEnqueue K q (mkOutcome cfg cc val m)).1
          else q)
        q =
      (dispatchMatch cc val ms).foldl
        (fun q m => (tryEnqueue K q (mkOutcome cfg cc val m)).1) q := by
  induction ms generalizing q with
  | nil => rfl
  | cons m ms ih =>
    by_cases h : m.cc = cc ∧ m.value = val <;>
      simp [dispatchMatch, h, ih]

/-- On a Control-Change event, `processEvent` is the enqueue fold over
the dispatch matches. -/
theorem processEvent_cc (cfg : Config) (K : Nat) (q : List MidiEvent)
    (e : RawEvent) (h : e.b0 &&& 0xF0 = 0xB0) :
    processEvent cfg K q e =
      (dispatchMatch e.b1 e.b2 cfg.mappings).foldl
        (fun q m => (tryEnqueue K q (mkOutcome cfg e.b1 e.b2 m)).1) q := by
  simp only [processEvent, h, if_pos]
  exact matchFold_eq cfg K e.b1 e.b2 cfg.mappings q

/-- A single enqueue attempt never pushes the queue above capacity. -/
theorem tryEnqueue_length (K : Nat) (q : List MidiEvent) (e : MidiEvent)
    (h : q.length ≤ K) : ((tryEnqueue K q e).1).length ≤ K := by
  unfold tryEnqueue
  by_cases hl : q.length < K <;> simp [hl] <;> omega

/-- Any interleaving of enqueue attempts and dequeues keeps the queue
within capacity. -/
theorem runOps_length (K : Nat) (ops : List QueueOp) (q : List MidiEvent)
    (h : q.length ≤ K) : (runOps K ops q).length ≤ K := by
  induction ops generalizing q with
  | nil => exact h
  | cons op ops ih =>
    cases op with
    | enq e => exact ih _ (tryEnqueue_length K q e h)
    | deq =>
      refine ih _ ?_
      simp only [runOp, List.length_tail]
      omega

/-- When no action of the list panics, the sender loop attempts every
action in order and records one result per action. -/
theorem senderActions_eq_map (net : Net) (target : String)
    (acts : List OSCAction)
    (h : ∀ a ∈ acts, isCrash (sendAction net target a) = false) :
    senderActions net target acts = acts.map (sendAction net target) := by
  induction acts with
  | nil => rfl
  | cons a rest ih =>
    have ha := h a (List.mem_cons_self a rest)
    have hrest : ∀ a' ∈ rest, isCrash (sendAction net target a') = false :=
      fun a' h' => h a' (List.mem_cons_of_mem a h')
    cases hsa : sendAction net target a with
    | crash s => rw [hsa] at ha; simp [isCrash] at ha
    | sent x y z => simp [senderActions, hsa, ih hrest]
    | senderr x y z w => simp [senderActions, hsa, ih hrest]
    | err s => simp [senderActions, hsa, ih hrest]

/-- When no action of any outcome panics, the worker processes every
outcome in FIFO order. -/
theorem senderWorker_eq_map (net : Net) (outs : List MidiEvent)
    (h : ∀ o ∈ outs, ∀ a ∈ o.actions,
      isCrash (sendAction net o.target a) = false) :
    senderWorker net outs =
      outs.map fun o => o.actions.map (sendAction net o.target) := by
  induction outs with
  | nil => rfl
  | cons o rest ih =>
    have ho := senderActions_eq_map net o.target o.actions
      (h o (List.mem_cons_self o rest))
    have hno : (senderActions net o.target o.actions).any isCrash = false := by
      rw [ho]
      rw [Bool.eq_false_iff]
      intro hany
      rcases List.any_eq_true.mp hany with ⟨r, hr, hcr⟩
      rcases List.mem_map.mp hr with ⟨a, ha, rfl⟩
      have := h o (List.mem_cons_self o rest) a ha
      rw [this] at hcr
      exact Bool.false_ne_true hcr
    have hrest : ∀ o' ∈ rest, ∀ a ∈ o'.actions,
        isCrash (sendAction net o'.target a) = false :=
      fun o' h' => h o' (List.mem_cons_of_mem o h')
    simp only [senderWorker]
    rw [hno]
    simp [ho, ih hrest]

/-- The only source of a panic in `sendOSC` is the encode step: every
other failure (scheme, address shape, unsupported tag, network) is a
returned error. -/
theorem sendOSC_no_crash (net : Net) (addr path t : String) (v : GoVal)
    (h : ∀ s, encodeArg t v ≠ .crash s) :
    isCrash (sendOSC net addr path t v) = false := by
  unfold sendOSC
  split
  · rfl
  · split
    · split
      · split <;> rfl
      · rfl
      · rename_i s heq
        exact absurd heq (h s)
    · rfl

/-- Reduction of `sendOSC` once the address shape is known: scheme OK
and the remainder splits into exactly a host and a port. -/
theorem sendOSC_split (net : Net) (addr path t : String) (v : GoVal)
    (host port : List Char)
    (hpre : leadsWith "osc.tcp://".toList addr.toList = true)
    (hsplit : splitCh ':' (addr.drop 10).toList = [host, port]) :
    sendOSC net addr path t v =
      match encodeArg t v with
      | .ok d =>
        match net (String.mk host) (atoiChars port) ⟨path, [d]⟩ with
        | none => .sent (String.mk host) (atoiChars port) ⟨path, [d]⟩
        | some e => .senderr (String.mk host) (atoiChars port) ⟨path, [d]⟩ e
      | .err e => .err e
      | .crash e => .crash e := by
  unfold sendOSC
  rw [hpre, hsplit]
  simp

/-- A list with no digit has an empty leading digit run. -/
theorem takeWhile_isDigit_nil (cs : List Char)
    (h : ∀ c ∈ cs, c.isDigit = false) :
    cs.takeWhile Char.isDigit = [] := by
  cases cs with
  | nil => rfl
  | cons c cs => simp [List.takeWhile_cons, h c (List.mem_cons_self c cs)]

/-- `decDigits` fails on a list with no digit. -/
theorem decDigits_none (cs : List Char)
    (h : ∀ c ∈ cs, c.isDigit = false) : decDigits cs = none := by
  unfold decDigits
  simp [takeWhile_isDigit_nil cs h]

/-- `atoi` of a digit-free string is the zero value (the scan error is
discarded). -/
theorem atoiChars_no_digits (cs : List Char)
    (h : ∀ c ∈ cs, c.isDigit = false) : atoiChars cs = 0 := by
  have hsub : ∀ c ∈ cs.dropWhile (fun c => c = ' ' ∨ c = '\t'), c ∈ cs :=
    fun c hc => (List.dropWhile_sublist _).subset hc
  unfold atoiChars scanDec
  cases hr : cs.dropWhile (fun c => c = ' ' ∨ c = '\t') with
  | nil => simp
  | cons c cs' =>
    have hcmem : c ∈ cs := hsub c (by rw [hr]; exact List.mem_cons_self c cs')
    have hc : c.isDigit = false := h c hcmem
    have hcs' : ∀ x ∈ cs', x.isDigit = false := fun x hx =>
      h x (hsub x (by rw [hr]; exact List.mem_cons_of_mem c hx))
    by_cases hnl : c = '\n' ∨ c = '\r'
    · simp [hnl]
    · by_cases hm : c = '-'
      · simp [hnl, hm, decDigits_none cs' hcs']
      · by_cases hp : c = '+'
        · simp [hnl, hm, hp, decDigits_none cs' hcs']
        · have hd : decDigits (c :: cs') = none := by
            refine decDigits_none _ ?_
            intro x hx
            rcases List.mem_cons.mp hx with rfl | hx
            · exact hc
            · exact hcs' x hx
          simp [hnl, hm, hp, hd]

/-- A block with no Control-Change event leaves the queue untouched. -/
theorem process_non_cc (cfg : Config) (K : Nat) (q : List MidiEvent)
    (events : List RawEvent)
    (h : ∀ e ∈ events, ¬ e.b0 &&& 0xF0 = 0xB0) :
    process cfg K q events = q := by
  induction events generalizing q with
  | nil => rfl
  | cons e es ih =>
    have he := h e (List.mem_cons_self e es)
    have hq : processEvent cfg K q e = q := by simp [processEvent, he]
    unfold process
    rw [List.foldl_cons, hq]
    exact ih q fun e' h' => h e' (List.mem_cons_of_mem e h')

/-- When no mapping matches, the dispatch loop selects nothing. -/
theorem dispatchMatch_nil (cc val : Nat) (ms : List Mapping)
    (h : ∀ m ∈ ms, ¬ (m.cc = cc ∧ m.value = val)) :
    dispatchMatch cc val ms = [] := by
  induction ms with
  | nil => rfl
  | cons m ms ih =>
    have hm := h m (List.mem_cons_self m ms)
    unfold dispatchMatch
    rw [if_neg hm]
    exact ih fun m' h' => h m' (List.mem_cons_of_mem m h')

/-!  Claim theorems. -/

/-- C1: for every incoming Control-Change event and every config
snapshot, dispatch matching is decided by exact equality on both the
controller number and the value: the dispatch loop is the
order-preserving filter by exact equality (so all matching rules fire,
in config order), on a Control-Change event the producer attempts one
enqueue per match in that order, and an event (controller=27, value=0)
matches no rule when no rule declares trigger value 0. -/
theorem dispatch_exact_equality_all_matches (cc val : Nat)
    (ms : List Mapping) :
    dispatchMatch cc val ms =
        (ms.filter fun m => m.cc == cc && m.value == val)
      ∧ ((∀ m ∈ ms, m.value ≠ 0) → dispatchMatch 27 0 ms = [])
      ∧ ∀ (cfg : Config) (K : Nat) (q : List MidiEvent) (e : RawEvent),
          e.b0 &&& 0xF0 = 0xB0 →
          processEvent cfg K q e =
            (dispatchMatch e.b1 e.b2 cfg.mappings).foldl
              (fun q m => (tryEnqueue K q (mkOutcome cfg e.b1 e.b2 m)).1) q := by
  refine ⟨dispatchMatch_eq_filter cc val ms, ?_, ?_⟩
  · intro h
    refine dispatchMatch_nil 27 0 ms ?_
    intro m hm hand
    exact h m hm hand.2
  · intro cfg K q e he
    exact processEvent_cc cfg K q e he

theorem dispatch_exact_equality_all_matches_witness :
    dispatchMatch 27 0 [⟨27, 127, []⟩] = []
      ∧ processEvent ⟨"t", []⟩ 64 [] ⟨0xB0, 1, 2⟩ =
          (dispatchMatch 1 2 (Config.mappings ⟨"t", []⟩)).foldl
            (fun q m => (tryEnqueue 64 q (mkOutcome ⟨"t", []⟩ 1 2 m)).1) [] :=
  ⟨(dispatch_exact_equality_all_matches 27 0 [⟨27, 127, []⟩]).2.1 (by decide),
   (dispatch_exact_equality_all_matches 27 0 [⟨27, 127, []⟩]).2.2
     ⟨"t", []⟩ 64 [] ⟨0xB0, 1, 2⟩ (by decide)⟩

/-- C2: a producer enqueue attempt always completes at once with
either an enqueued signal (free slot: the item is appended) or a
dropped signal (full queue: contents unchanged, the item is discarded,
never buffered); and starting within capacity, every interleaving of
enqueue attempts and consumer dequeues — including a consumer that
never runs — keeps the occupancy at most the capacity K. -/
theorem enqueue_nonblocking_bounded (K : Nat) (q : List MidiEvent)
    (e : MidiEvent) (ops : List QueueOp) :
    (q.length < K → tryEnqueue K q e = (q ++ [e], true))
      ∧ (K ≤ q.length → tryEnqueue K q e = (q, false))
      ∧ (q.length ≤ K → (runOps K ops q).length ≤ K) := by
  refine ⟨?_, ?_, fun h => runOps_length K ops q h⟩
  · intro h
    simp [tryEnqueue, h]
  · intro h
    unfold tryEnqueue
    rw [if_neg (by omega)]

theorem enqueue_nonblocking_bounded_witness :
    tryEnqueue 1 [] ⟨0, 0, "", []⟩ = ([⟨0, 0, "", []⟩], true)
      ∧ tryEnqueue 1 [⟨0, 0, "", []⟩] ⟨0, 0, "", []⟩ =
          ([⟨0, 0, "", []⟩], false)
      ∧ (runOps 1 [.enq ⟨0, 0, "", []⟩, .deq] []).length ≤ 1 :=
  ⟨(enqueue_nonblocking_bounded 1 [] ⟨0, 0, "", []⟩ []).1 (by decide),
   (enqueue_nonblocking_bounded 1 [⟨0, 0, "", []⟩] ⟨0, 0, "", []⟩ []).2.1
     (by decide),
   (enqueue_nonblocking_bounded 1 [] ⟨0, 0, "", []⟩
     [.enq ⟨0, 0, "", []⟩, .deq]).2.2 (by decide)⟩

/-- C5: with capacity 2 and three outcomes enqueued back-to-back before
any dequeue, the first two attempts are enqueued, the third attempt
reports a drop (the queue keeps the first two), and the consumer then
receives the first two in their enqueue (FIFO) order. -/
theorem capacity_two_third_drop (a b c : MidiEvent) :
    tryEnqueue 2 [] a = ([a], true)
      ∧ tryEnqueue 2 [a] b = ([a, b], true)
      ∧ tryEnqueue 2 [a, b] c = ([a, b], false)
      ∧ dequeue [a, b] = some (a, [b])
      ∧ dequeue [b] = some (b, []) := by
  refine ⟨?_, ?_, ?_, rfl, rfl⟩ <;> simp [tryEnqueue]

/-- C6: the realtime producer dispatches only events whose leading
status byte's upper nibble is 0xB0 (Control-Change); an event with any
other status nibble leaves the queue untouched, and a whole block of
such events enqueues nothing. -/
theorem non_cc_events_ignored (cfg : Config) (K : Nat)
    (q : List MidiEvent) (e : RawEvent) (events : List RawEvent)
    (h : ¬ e.b0 &&& 0xF0 = 0xB0)
    (hall : ∀ e' ∈ events, ¬ e'.b0 &&& 0xF0 = 0xB0) :
    processEvent cfg K q e = q ∧ process cfg K q events = q :=
  ⟨by simp [processEvent, h], process_non_cc cfg K q events hall⟩

theorem non_cc_events_ignored_witness :
    processEvent ⟨"t", [⟨1, 2, []⟩]⟩ 64 [] ⟨0x90, 1, 2⟩ = []
      ∧ process ⟨"t", [⟨1, 2, []⟩]⟩ 64 [] [⟨0x90, 1, 2⟩, ⟨0x80, 3, 4⟩] = [] :=
  non_cc_events_ignored ⟨"t", [⟨1, 2, []⟩]⟩ 64 [] ⟨0x90, 1, 2⟩
    [⟨0x90, 1, 2⟩, ⟨0x80, 3, 4⟩] (by decide) (by decide)

/-- C8: when no mapping matches the (controller, value) pair, the
dispatch matcher returns the empty list and a Control-Change event
carrying that pair enqueues nothing onto the bounded event queue. -/
theorem no_match_empty_no_enqueue (cc val : Nat) (cfg : Config)
    (K : Nat) (q : List MidiEvent) (e : RawEvent)
    (h : ∀ m ∈ cfg.mappings, ¬ (m.cc = cc ∧ m.value = val))
    (hb1 : e.b1 = cc) (hb2 : e.b2 = val) :
    dispatchMatch cc val cfg.mappings = [] ∧ processEvent cfg K q e = q := by
  have hd : dispatchMatch cc val cfg.mappings = [] :=
    dispatchMatch_nil cc val _ h
  refine ⟨hd, ?_⟩
  by_cases hcc : e.b0 &&& 0xF0 = 0xB0
  · rw [processEvent_cc cfg K q e hcc, hb1, hb2, hd, List.foldl_nil]
  · simp [processEvent, hcc]

theorem no_match_empty_no_enqueue_witness :
    dispatchMatch 27 0 [⟨27, 127, []⟩] = []
      ∧ processEvent ⟨"t", [⟨27, 127, []⟩]⟩ 64 [] ⟨0xB0, 27, 0⟩ = [] :=
  no_match_empty_no_enqueue 27 0 ⟨"t", [⟨27, 127, []⟩]⟩ 64 []
    ⟨0xB0, 27, 0⟩ (by decide) rfl rfl

/-- Any error returned by the encode step is the unsupported-type
error; the asserting tags produce only a value or a panic. -/
theorem encodeArg_err (t : String) (v : GoVal) (e : String)
    (h : encodeArg t v = .err e) : e = "unsupported OSC type: " ++ t := by
  unfold encodeArg at h
  split at h <;> try (split at h)
  all_goals simp_all

/-- C3: an action whose asserting type tag (`i`, `f`, `s`) disagrees
with the runtime type of its configured value makes the encode step of
`sendOSC` panic — an unrecoverable failure, not an action-local error —
and with a well-formed address `sendOSC` itself ends in that panic. -/
theorem type_mismatch_crashes (net : Net) (addr path t : String)
    (v : GoVal) (host port : List Char)
    (ht : assertingTag t = true) (hv : valMatchesTag t v = false)
    (hpre : leadsWith "osc.tcp://".toList addr.toList = true)
    (hsplit : splitCh ':' (addr.drop 10).toList = [host, port]) :
    ∃ s, encodeArg t v = .crash s ∧ sendOSC net addr path t v = .crash s := by
  have ht' : t = "i" ∨ t = "f" ∨ t = "s" := by
    simpa [assertingTag, or_assoc] using ht
  have henc : ∃ s, encodeArg t v = .crash s := by
    rcases ht' with rfl | rfl | rfl
    · cases v with
      | vint n => simp [valMatchesTag] at hv
      | vfloat x => exact ⟨_, rfl⟩
      | vstring s => exact ⟨_, rfl⟩
      | vbool b => exact ⟨_, rfl⟩
      | vnil => exact ⟨_, rfl⟩
    · cases v with
      | vfloat x => simp [valMatchesTag] at hv
      | vint n => exact ⟨_, rfl⟩
      | vstring s => exact ⟨_, rfl⟩
      | vbool b => exact ⟨_, rfl⟩
      | vnil => exact ⟨_, rfl⟩
    · cases v with
      | vstring s => simp [valMatchesTag] at hv
      | vint n => exact ⟨_, rfl⟩
      | vfloat x => exact ⟨_, rfl⟩
      | vbool b => exact ⟨_, rfl⟩
      | vnil => exact ⟨_, rfl⟩
  obtain ⟨s, hs⟩ := henc
  refine ⟨s, hs, ?_⟩
  rw [sendOSC_split net addr path t v host port hpre hsplit, hs]

theorem type_mismatch_crashes_witness :
    ∃ s, encodeArg "i" (.vstring "on") = .crash s
      ∧ sendOSC netOk "osc.tcp://h:1" "/p" "i" (.vstring "on") = .crash s :=
  type_mismatch_crashes netOk "osc.tcp://h:1" "/p" "i" (.vstring "on")
    "h".toList "1".toList (by decide) (by decide) (by decide) (by decide)

/-- C4: with no panic among the actions, the sender worker attempts
every action of an outcome in configured order and every outcome in
FIFO order — one result per action, an action's error never preventing
the remaining actions or later outcomes; and any `sendOSC` failure
other than an encode-step panic (unsupported scheme, malformed
address, unsupported type tag, per-send network failure) is such an
action-local error result, never a panic. -/
theorem sender_errors_action_local (net : Net) (target : String)
    (acts : List OSCAction) (outs : List MidiEvent)
    (h1 : ∀ a ∈ acts, isCrash (sendAction net target a) = false)
    (h2 : ∀ o ∈ outs, ∀ a ∈ o.actions,
      isCrash (sendAction net o.target a) = false) :
    senderActions net target acts = acts.map (sendAction net target)
      ∧ senderWorker net outs =
          (outs.map fun o => o.actions.map (sendAction net o.target))
      ∧ ∀ (addr path t : String) (v : GoVal),
          (∀ s, encodeArg t v ≠ .crash s) →
          isCrash (sendOSC net addr path t v) = false :=
  ⟨senderActions_eq_map net target acts h1,
   senderWorker_eq_map net outs h2,
   fun addr path t v hv => sendOSC_no_crash net addr path t v hv⟩

theorem sender_errors_action_local_witness :
    senderActions netOk "osc.tcp://h:1"
        [⟨"/a", "x", .vnil⟩, ⟨"/b", "i", .vint 2⟩] =
      ([⟨"/a", "x", .vnil⟩, ⟨"/b", "i", .vint 2⟩] : List OSCAction).map
        (sendAction netOk "osc.tcp://h:1")
      ∧ senderWorker netOk [⟨1, 2, "osc.tcp://h:1", [⟨"/a", "x", .vnil⟩]⟩] =
          ([⟨1, 2, "osc.tcp://h:1", [⟨"/a", "x", .vnil⟩]⟩] :
              List MidiEvent).map
            (fun o => o.actions.map (sendAction netOk o.target))
      ∧ isCrash (sendOSC netOk "osc.tcp://h:1" "/p" "x" .vnil) = false := by
  obtain ⟨w1, w2, w3⟩ := sender_errors_action_local netOk "osc.tcp://h:1"
    [⟨"/a", "x", .vnil⟩, ⟨"/b", "i", .vint 2⟩]
    [⟨1, 2, "osc.tcp://h:1", [⟨"/a", "x", .vnil⟩]⟩]
    (by decide) (by decide)
  refine ⟨w1, w2, w3 "osc.tcp://h:1" "/p" "x" .vnil ?_⟩
  intro s h
  have he : encodeArg "x" GoVal.vnil = .err "unsupported OSC type: x" := rfl
  rw [he] at h
  exact EncodeResult.noConfusion h

/-- C7: with the config holding exactly the rule {controller=27,
value=127, actions=[{path=/Carla_Patchbay_4/0/set_active, type=i,
value=1}]}, an incoming (27, 127) event yields exactly one send
attempt, addressed to that path, carrying the encoded 32-bit integer 1
— both through the synchronous handler and through the
producer/queue/worker pipeline. -/
theorem round_trip_single_send :
    ccHandler netOk roundTripConfig 27 127 =
        [.sent "clrinfopo18.home" 22752
          ⟨"/Carla_Patchbay_4/0/set_active", [.dint32 1]⟩]
      ∧ senderWorker netOk
          (process roundTripConfig eventChanCap [] [⟨0xB0, 27, 127⟩]) =
        [[.sent "clrinfopo18.home" 22752
          ⟨"/Carla_Patchbay_4/0/set_active", [.dint32 1]⟩]] := by
  decide

/-- C9: the boolean type tags ignore the configured value entirely:
`T` always appends the constant true and `F` the constant false,
whatever value is configured, so no value/type-tag mismatch panic is
possible for boolean-tagged actions at any address. -/
theorem bool_tags_ignore_value (v : GoVal) :
    encodeArg "T" v = .ok (.dbool true)
      ∧ encodeArg "F" v = .ok (.dbool false)
      ∧ ∀ (net : Net) (addr path : String),
          isCrash (sendOSC net addr path "T" v) = false
            ∧ isCrash (sendOSC net addr path "F" v) = false := by
  have hT : encodeArg "T" v = .ok (.dbool true) := rfl
  have hF : encodeArg "F" v = .ok (.dbool false) := rfl
  refine ⟨hT, hF, fun net addr path => ⟨?_, ?_⟩⟩
  · refine sendOSC_no_crash net addr path "T" v ?_
    intro s h
    rw [hT] at h
    exact EncodeResult.noConfusion h
  · refine sendOSC_no_crash net addr path "F" v ?_
    intro s h
    rw [hF] at h
    exact EncodeResult.noConfusion h

/-- C10 counterexample: the port substring "80abc" is not a valid
decimal numeral, yet `atoi` yields 80 — the scan error is discarded but
the scanned leading digits are kept — so the send is attempted against
port 80, not against port 0 as the claim states. -/
theorem nonnumeric_port_counterexample :
    decimalNumeral "80abc" = false
      ∧ atoi "80abc" = 80
      ∧ sendOSC netOk "osc.tcp://h:80abc" "/p" "i" (.vint 1) =
          .sent "h" 80 ⟨"/p", [.dint32 1]⟩ := by
  decide

/-- C10 amended: for every address osc.tcp://host:port whose remainder
splits on ':' into exactly two parts, `sendOSC` raises no
malformed-address error — the only address-shape error is the two-part
split check — and the send is attempted against `atoi port`, the value
of the port's leading decimal run after an optional sign; it is 0
(parse error discarded) when the port substring has no digit at all;
any error `sendOSC` does return under this address shape is the
unsupported-type error. -/
theorem port_parse_never_address_error (net : Net) (addr path : String)
    (host port : List Char) (n : Int)
    (hpre : leadsWith "osc.tcp://".toList addr.toList = true)
    (hsplit : splitCh ':' (addr.drop 10).toList = [host, port]) :
    sendOSC net addr path "i" (.vint n) =
        (match net (String.mk host) (atoiChars port)
            ⟨path, [.dint32 (toInt32 n)]⟩ with
          | none => .sent (String.mk host) (atoiChars port)
              ⟨path, [.dint32 (toInt32 n)]⟩
          | some e => .senderr (String.mk host) (atoiChars port)
              ⟨path, [.dint32 (toInt32 n)]⟩ e)
      ∧ ((∀ c ∈ port, c.isDigit = false) → atoiChars port = 0)
      ∧ ∀ (t : String) (v : GoVal) (e : String),
          sendOSC net addr path t v = .err e →
          e = "unsupported OSC type: " ++ t := by
  refine ⟨?_, fun h => atoiChars_no_digits port h, ?_⟩
  · rw [sendOSC_split net addr path "i" (.vint n) host port hpre hsplit]
    rfl
  · intro t v e he
    rw [sendOSC_split net addr path t v host port hpre hsplit] at he
    cases henc : encodeArg t v with
    | ok d =>
      cases hnet : net (String.mk host) (atoiChars port) ⟨path, [d]⟩ with
      | none =>
        simp only [henc, hnet] at he
        exact SendResult.noConfusion he
      | some e' =>
        simp only [henc, hnet] at he
        exact SendResult.noConfusion he
    | err e' =>
      simp only [henc] at he
      have h' : e' = e := by injection he
      rw [← h']
      exact encodeArg_err t v e' henc
    | crash s =>
      simp only [henc] at he
      exact SendResult.noConfusion he

theorem port_parse_never_address_error_witness :
    sendOSC netOk "osc.tcp://h:abc" "/p" "i" (.vint 1) =
        .sent "h" 0 ⟨"/p", [.dint32 1]⟩
      ∧ atoiChars "abc".toList = 0 := by
  obtain ⟨w1, w2, _⟩ := port_parse_never_address_error netOk
    "osc.tcp://h:abc" "/p" "h".toList "abc".toList 1 (by decide) (by decide)
  exact ⟨w1, w2 (by decide)⟩
